import Mathlib

/-
Verification of the clock-engine core of `src/public/js/app.js` (the
canonical variant, the second IIFE block of the file, lines 452-846).

Shallow embedding conventions:
  * JS numbers that hold timestamps, milliseconds and rates are modelled as
    exact rationals (the spec calls them "reals"; the engine's arithmetic is
    +, -, *, /, floor, round, min, max, which ℚ supports exactly).
  * The JS value `0` plays the role of "null" for `lastTickUpdateMs` and
    `lastStartMs` (the code tests `if (!lastTickUpdateMs)`, i.e. falsiness).
  * Non-finite JS numbers (NaN, ±Infinity) coming from the outside world
    (input parsing, the YouTube player) are modelled by `Option ℚ`, with
    `none` for "not a finite number"; `Number.isFinite` checks in the code
    become `match`es on the option.
  * The player collaborator is modelled by its observable answers: the
    values `getCurrentTime` and `getDuration` return at the call (or `none`
    when the player is absent / throws / returns a non-finite value).  The
    `seekTo` side effect is modelled as the second component of `skipBy`'s
    result: `some target` when a seek is requested, `none` otherwise.
  * Every operation of the engine ends by calling `updateUi()`; the DOM
    writes in `updateUi` are irrelevant to the state, except the
    `lastShownTick` cache, which we model assuming the display nodes exist
    (the code then sets it to the current `tickCount`).
  * All `performance.now()` reads inside one operation are modelled as the
    single timestamp `now` the operation is invoked at.
-/

namespace YtTicks

/-- Constant `DEFAULT_FPS` from app.js (the spec's `baseRate`). -/
def DEFAULT_FPS : ℚ := 60

/-- JS `Math.round`: rounds half-way cases toward +∞, i.e. `⌊x + 1/2⌋`. -/
def jsRound (q : ℚ) : ℤ := ⌊q + 1/2⌋

/-- The `clamp(v, min, max)` helper of app.js: `Math.max(min, Math.min(max, v))`. -/
def clamp (v lo hi : ℚ) : ℚ := max lo (min hi v)

/-- The module-level mutable state of the clock engine (one field per
`let`-binding of app.js that the core reads or writes; DOM handles, the
video id and `rafId` are excluded as pure UI plumbing). -/
structure ClockState where
  accumulatedMs : ℚ
  lastStartMs : ℚ
  running : Bool
  appliedFps : ℚ
  lastShownTick : ℤ
  tickCount : ℤ
  tickAccumMs : ℚ
  lastTickUpdateMs : ℚ
deriving DecidableEq, Repr

/-- The initial state: all fields zeroed, `appliedFps = DEFAULT_FPS`,
`lastShownTick = -1`, not running. -/
def initState : ClockState :=
  { accumulatedMs := 0, lastStartMs := 0, running := false,
    appliedFps := DEFAULT_FPS, lastShownTick := -1, tickCount := 0,
    tickAccumMs := 0, lastTickUpdateMs := 0 }

/-- Value `msPerTick = 1000 / Math.max(1, appliedFps)` as computed in `updateUi`. -/
def mpt (s : ClockState) : ℚ := 1000 / max 1 s.appliedFps

/-- The tick accumulator right after `tickAccumMs += delta` in `updateUi`:
the code first replaces a falsy (`0`) `lastTickUpdateMs` by `now`, so the
delta is `now - lastTickUpdateMs` or `0` in the null case. -/
def tickAccumAfter (now : ℚ) (s : ClockState) : ℚ :=
  s.tickAccumMs + (now - (if s.lastTickUpdateMs = 0 then now else s.lastTickUpdateMs))

/-- Operation `updateUi()` at timestamp `now` (app.js lines 515-562), restricted to its
state mutations: while running it advances the tick accumulator and converts
whole ticks in one integer-division step; while stopped it clears
`lastTickUpdateMs`.  In both cases the `lastShownTick` display cache ends up
equal to the (new) `tickCount`. -/
def updateUi (now : ℚ) (s : ClockState) : ClockState :=
  if s.running then
    if mpt s ≤ tickAccumAfter now s then
      { s with lastTickUpdateMs := now,
               tickAccumMs :=
                 tickAccumAfter now s - ⌊tickAccumAfter now s / mpt s⌋ * mpt s,
               tickCount := s.tickCount + ⌊tickAccumAfter now s / mpt s⌋,
               lastShownTick := s.tickCount + ⌊tickAccumAfter now s / mpt s⌋ }
    else
      { s with lastTickUpdateMs := now,
               tickAccumMs := tickAccumAfter now s,
               lastShownTick := s.tickCount }
  else
    { s with lastTickUpdateMs := 0, lastShownTick := s.tickCount }

/-- The spec's `advance(now)` scheduling hook is exactly a call of
`updateUi` at the frame timestamp. -/
def advance : ℚ → ClockState → ClockState := updateUi

/-- A sequence of `advance` calls at the listed timestamps. -/
def advanceRun (l : List ℚ) (s : ClockState) : ClockState :=
  l.foldl (fun st t => advance t st) s

/-- Operation `play()` at timestamp `now` (app.js lines 586-596). -/
def play (now : ℚ) (s : ClockState) : ClockState :=
  updateUi now
    (if s.running then s
     else { s with lastStartMs := now, lastTickUpdateMs := now, running := true })

/-- Operation `stop()` at timestamp `now` (app.js lines 598-609). -/
def stop (now : ℚ) (s : ClockState) : ClockState :=
  updateUi now
    (if s.running then
       { s with accumulatedMs := s.accumulatedMs + (now - s.lastStartMs),
                running := false }
     else s)

/-- Operation `reset()` at timestamp `now` (app.js lines 612-642). -/
def reset (now : ℚ) (s : ClockState) : ClockState :=
  updateUi now
    { s with accumulatedMs := 0, lastStartMs := now, running := true,
             tickCount := 0, tickAccumMs := 0, lastTickUpdateMs := now,
             lastShownTick := -1 }

/-- Operation `commitAppliedFps()` (app.js lines 758-775).  `raw` is `Number(fpsInput.value)`
as an option (`none` for NaN/±Infinity, so that `Number.isFinite` fails). -/
def commitAppliedFps (raw : Option ℚ) (now : ℚ) (s : ClockState) : ClockState :=
  match raw with
  | none => s
  | some v =>
    if 0 < v then
      updateUi now
        { s with appliedFps := v, tickAccumMs := 0,
                 lastTickUpdateMs := if s.running then now else 0,
                 lastShownTick := -1 }
    else s

/-- The `unit` argument of `skipBy` (`'ticks'` or `'seconds'`; the code
treats every non-`'ticks'` string as seconds). -/
inductive SkipUnit where
  | ticks
  | seconds
deriving DecidableEq, Repr

/-- Value `requestedSec` in `skipBy`: ticks are converted at
`Math.max(1, DEFAULT_FPS)` ticks per second. -/
def requestedSec (amount : ℚ) (u : SkipUnit) : ℚ :=
  match u with
  | .ticks => amount / max 1 DEFAULT_FPS
  | .seconds => amount

/-- Wall elapsed time at `now`: `accumulatedMs + (running ? now - lastStartMs : 0)`. -/
def wallElapsedMs (now : ℚ) (s : ClockState) : ℚ :=
  s.accumulatedMs + (if s.running then now - s.lastStartMs else 0)

/-- Value `playerCurrentSec` in `skipBy`: the player's reported position when it is
a finite number, otherwise the wall-derived fallback `wallCurrentSec`. -/
def playerBaseSec (pc : Option ℚ) (now : ℚ) (s : ClockState) : ℚ :=
  pc.getD (wallElapsedMs now s / 1000)

/-- Value `durationSec` in `skipBy`: the player's reported duration when finite and
positive, otherwise `Infinity` (modelled as `none`, meaning no upper clamp). -/
def durOpt (pd : Option ℚ) : Option ℚ :=
  match pd with
  | some d => if 0 < d then some d else none
  | none => none

/-- Value `targetPlayerSec = clamp(playerCurrentSec + deltaSec, 0, durationSec)`;
with an infinite duration the JS clamp degenerates to `Math.max(0, ·)`. -/
def targetSec (v : ℚ) (dur : Option ℚ) : ℚ :=
  match dur with
  | some d => clamp v 0 d
  | none => max 0 v

/-- The tick adjustment of `skipBy`: `Math.round` of the actually jumped
seconds times `DEFAULT_FPS` (ticks unit) or `appliedFps` (seconds unit). -/
def tickDelta (u : SkipUnit) (fps actual : ℚ) : ℤ :=
  match u with
  | .ticks => jsRound (actual * DEFAULT_FPS)
  | .seconds => jsRound (actual * fps)

/-- The state mutation block of `skipBy` (app.js lines 692-723): adjust
`tickCount` by the actual jumped seconds, then update `accumulatedMs` with
the duration-aware clamp and reset `lastTickUpdateMs`. -/
def skipCore (u : SkipUnit) (actual : ℚ) (dur : Option ℚ) (now : ℚ)
    (s : ClockState) : ClockState :=
  let dt := tickDelta u s.appliedFps actual
  let s1 := if dt ≠ 0 then
      { s with tickCount := max 0 (s.tickCount + dt), lastShownTick := -1 }
    else s
  let jumpMs := actual * 1000
  if s.running then
    { s1 with
      accumulatedMs :=
        (match dur with
         | some d =>
           clamp (s1.accumulatedMs + jumpMs) 0 (max 0 (d * 1000 - (now - s.lastStartMs)))
         | none => max 0 (s1.accumulatedMs + jumpMs)),
      lastTickUpdateMs := now }
  else
    { s1 with
      accumulatedMs :=
        (match dur with
         | some d => clamp (s1.accumulatedMs + jumpMs) 0 (d * 1000)
         | none => max 0 (s1.accumulatedMs + jumpMs)),
      lastTickUpdateMs := 0 }

/-- Operation `skipBy(amount, unit, direction)` at timestamp `now` (app.js lines
651-736).  `amount` is `Number(amount)` as an option (`none` = non-finite),
`pc`/`pd` are the player's reported position/duration (`none` = player absent,
call threw, or returned a non-finite value).  Returns the new state and the
seek request sent to the player (`none` when no seek is issued). -/
def skipBy (amount : Option ℚ) (u : SkipUnit) (direction : ℤ)
    (pc pd : Option ℚ) (now : ℚ) (s : ClockState) : ClockState × Option ℚ :=
  match amount with
  | none => (s, none)
  | some numeric =>
    if numeric < 0 ∨ (direction ≠ -1 ∧ direction ≠ 1) then (s, none)
    else
      let target :=
        targetSec (playerBaseSec pc now s + (direction : ℚ) * requestedSec numeric u)
          (durOpt pd)
      (updateUi now
        (skipCore u (target - playerBaseSec pc now s) (durOpt pd) now s),
       some target)

/-- States reachable by the engine's operations, with non-decreasing
timestamps (`performance.now()` is monotonic and non-negative).
`Reachable t s` means: after some operation sequence whose calls all happened
at times `≤ t`, the state is `s`. -/
inductive Reachable : ℚ → ClockState → Prop where
  | init (t : ℚ) (ht : 0 ≤ t) : Reachable t initState
  | wait {t : ℚ} {s : ClockState} (h : Reachable t s) {u : ℚ} (hle : t ≤ u) :
      Reachable u s
  | frame {t : ℚ} {s : ClockState} (h : Reachable t s) {u : ℚ} (hle : t ≤ u) :
      Reachable u (updateUi u s)
  | doPlay {t : ℚ} {s : ClockState} (h : Reachable t s) {u : ℚ} (hle : t ≤ u) :
      Reachable u (play u s)
  | doStop {t : ℚ} {s : ClockState} (h : Reachable t s) {u : ℚ} (hle : t ≤ u) :
      Reachable u (stop u s)
  | doReset {t : ℚ} {s : ClockState} (h : Reachable t s) {u : ℚ} (hle : t ≤ u) :
      Reachable u (reset u s)
  | doCommit {t : ℚ} {s : ClockState} (h : Reachable t s) (raw : Option ℚ)
      {u : ℚ} (hle : t ≤ u) : Reachable u (commitAppliedFps raw u s)
  | doSkip {t : ℚ} {s : ClockState} (h : Reachable t s) (amount : Option ℚ)
      (unit : SkipUnit) (dir : ℤ) (pc pd : Option ℚ) {u : ℚ} (hle : t ≤ u) :
      Reachable u (skipBy amount unit dir pc pd u s).1

/-- The inductive invariant of reachable states at clock time `t`. -/
def Inv (t : ℚ) (s : ClockState) : Prop :=
  0 ≤ s.accumulatedMs ∧ 0 ≤ s.lastStartMs ∧ s.lastStartMs ≤ t ∧
  0 ≤ s.lastTickUpdateMs ∧ s.lastTickUpdateMs ≤ t ∧
  0 < s.appliedFps ∧ 0 ≤ s.tickCount ∧
  0 ≤ s.tickAccumMs ∧ s.tickAccumMs < mpt s

/-- A state with a whole backlog of accumulator time but a null
`lastTickUpdateMs` (not reachable by the engine's operations; used to probe
the literal quantification of C1 over arbitrary states). -/
def probeC1 : ClockState :=
  { accumulatedMs := 0, lastStartMs := 0, running := true,
    appliedFps := 60, lastShownTick := -1, tickCount := 0,
    tickAccumMs := 2000, lastTickUpdateMs := 0 }

/-- A reachable state running at committed rate `1/2` tick/s:
`play` at `t = 1`, then `commitRate (1/2)` at `t = 1`. -/
def probeC2 : ClockState := commitAppliedFps (some (1/2)) 1 (play 1 initState)

/-- A reachable state whose wall clock ran 20000 ms past a 10-second video:
`play` at `t = 1`, then a zero-length skip at `t = 20001` during which the
player reports duration `10`. -/
def probeC6 : ClockState :=
  (skipBy (some 0) SkipUnit.seconds 1 none (some 10) 20001 (play 1 initState)).1

/-- A state with nonzero clocks, used to show no operation other than
`reset` zeroes both clocks from every prior state. -/
def probeC9 : ClockState :=
  { initState with tickCount := 7, accumulatedMs := 3 }

/- ------------------------------------------------------------------ -/
/- Helper lemmas about the arithmetic of the advance step.            -/
/- ------------------------------------------------------------------ -/

theorem mpt_pos (s : ClockState) : 0 < mpt s := by
  unfold mpt
  exact div_pos (by norm_num) (lt_of_lt_of_le one_pos (le_max_left 1 _))

theorem mpt_congr {s s' : ClockState} (h : s'.appliedFps = s.appliedFps) :
    mpt s' = mpt s := by
  unfold mpt
  rw [h]

theorem mpt_le (s : ClockState) (h : 0 < s.appliedFps) :
    mpt s ≤ 1000 / s.appliedFps := by
  unfold mpt
  have h1 : s.appliedFps ≤ max 1 s.appliedFps := le_max_right 1 _
  gcongr

theorem floorRed (A m : ℚ) (hm : 0 < m) :
    0 ≤ A - ⌊A / m⌋ * m ∧ A - ⌊A / m⌋ * m < m := by
  have hne : m ≠ 0 := ne_of_gt hm
  have h1 : A - (⌊A / m⌋ : ℚ) * m = m * Int.fract (A / m) := by
    rw [Int.fract]
    field_simp
    ring
  constructor
  · rw [h1]
    exact mul_nonneg hm.le (Int.fract_nonneg _)
  · rw [h1]
    calc m * Int.fract (A / m) < m * 1 :=
          mul_lt_mul_of_pos_left (Int.fract_lt_one _) hm
      _ = m := mul_one m

theorem tickAccumAfter_null {s : ClockState} (now : ℚ)
    (h : s.lastTickUpdateMs = 0) : tickAccumAfter now s = s.tickAccumMs := by
  unfold tickAccumAfter
  rw [if_pos h]
  ring

theorem tickAccumAfter_of_ne {s : ClockState} (now : ℚ)
    (h : s.lastTickUpdateMs ≠ 0) :
    tickAccumAfter now s = s.tickAccumMs + (now - s.lastTickUpdateMs) := by
  unfold tickAccumAfter
  rw [if_neg h]

theorem tickAccumAfter_now {s : ClockState} {now : ℚ}
    (h : s.lastTickUpdateMs = now) : tickAccumAfter now s = s.tickAccumMs := by
  by_cases h0 : s.lastTickUpdateMs = 0
  · exact tickAccumAfter_null now h0
  · rw [tickAccumAfter_of_ne now h0, h]
    ring

theorem tickAccumAfter_nonneg {s : ClockState} {now : ℚ}
    (hacc : 0 ≤ s.tickAccumMs) (hlast : s.lastTickUpdateMs ≤ now) :
    0 ≤ tickAccumAfter now s := by
  by_cases h0 : s.lastTickUpdateMs = 0
  · rw [tickAccumAfter_null now h0]
    exact hacc
  · rw [tickAccumAfter_of_ne now h0]
    have : 0 ≤ now - s.lastTickUpdateMs := by linarith
    linarith

/- ------------------------------------------------------------------ -/
/- Structure lemmas for updateUi.                                     -/
/- ------------------------------------------------------------------ -/

theorem updateUi_const (now : ℚ) (s : ClockState) :
    (updateUi now s).running = s.running ∧
    (updateUi now s).appliedFps = s.appliedFps ∧
    (updateUi now s).accumulatedMs = s.accumulatedMs ∧
    (updateUi now s).lastStartMs = s.lastStartMs := by
  refine ⟨?_, ?_, ?_, ?_⟩ <;> (unfold updateUi; split_ifs <;> rfl)

theorem updateUi_notRunning {s : ClockState} (now : ℚ)
    (h : s.running = false) :
    updateUi now s = { s with lastTickUpdateMs := 0, lastShownTick := s.tickCount } := by
  unfold updateUi
  rw [h]
  simp

theorem updateUi_noTick {s : ClockState} {now : ℚ} (hrun : s.running = true)
    (hl : s.lastTickUpdateMs = now) (hm : s.tickAccumMs < mpt s) :
    updateUi now s = { s with lastShownTick := s.tickCount } := by
  unfold updateUi
  rw [hrun, if_pos rfl, tickAccumAfter_now hl, if_neg (not_le.mpr hm)]
  rw [← hl]

theorem updateUi_mono (now : ℚ) (s : ClockState) :
    s.tickCount ≤ (updateUi now s).tickCount := by
  unfold updateUi
  split_ifs with h1 h2
  · have hm := mpt_pos s
    have hd : (1 : ℚ) ≤ tickAccumAfter now s / mpt s := by
      rw [le_div_iff₀ hm]
      linarith
    have : (1 : ℤ) ≤ ⌊tickAccumAfter now s / mpt s⌋ := by
      rw [Int.le_floor]
      exact_mod_cast hd
    simp only []
    omega
  · simp
  · simp

theorem updateUi_formula {s : ClockState} {now : ℚ} (hrun : s.running = true)
    (hacc : 0 ≤ s.tickAccumMs) (hlast : s.lastTickUpdateMs ≤ now) :
    (updateUi now s).tickCount
        = s.tickCount + ⌊tickAccumAfter now s / mpt s⌋ ∧
    (updateUi now s).tickAccumMs
        = tickAccumAfter now s - ⌊tickAccumAfter now s / mpt s⌋ * mpt s ∧
    (updateUi now s).lastTickUpdateMs = now := by
  have hA : 0 ≤ tickAccumAfter now s := tickAccumAfter_nonneg hacc hlast
  have hm := mpt_pos s
  unfold updateUi
  rw [hrun, if_pos rfl]
  by_cases hg : mpt s ≤ tickAccumAfter now s
  · rw [if_pos hg]
    exact ⟨rfl, rfl, rfl⟩
  · rw [if_neg hg]
    have hf : ⌊tickAccumAfter now s / mpt s⌋ = 0 := by
      rw [Int.floor_eq_zero_iff]
      constructor
      · exact div_nonneg hA hm.le
      · rw [div_lt_one hm]
        exact lt_of_not_le hg
    rw [hf]
    norm_num

theorem updateUi_run_step {s : ClockState} {now : ℚ} (hrun : s.running = true)
    (hacc : 0 ≤ s.tickAccumMs) (hlast : s.lastTickUpdateMs ≤ now) :
    (updateUi now s).running = true ∧
    (updateUi now s).appliedFps = s.appliedFps ∧
    (updateUi now s).lastTickUpdateMs = now ∧
    0 ≤ (updateUi now s).tickAccumMs ∧
    (updateUi now s).tickAccumMs < mpt s ∧
    s.tickCount ≤ (updateUi now s).tickCount := by
  obtain ⟨hr, hf, -, -⟩ := updateUi_const now s
  obtain ⟨h1, h2, h3⟩ := updateUi_formula hrun hacc hlast
  have hA : 0 ≤ tickAccumAfter now s := tickAccumAfter_nonneg hacc hlast
  have hm := mpt_pos s
  refine ⟨hr.trans hrun, hf, h3, ?_, ?_, updateUi_mono now s⟩
  · rw [h2]
    exact (floorRed _ _ hm).1
  · rw [h2]
    exact (floorRed _ _ hm).2

theorem updateUi_conserve {s : ClockState} {now : ℚ} (hrun : s.running = true)
    (hne : s.lastTickUpdateMs ≠ 0) (hacc : 0 ≤ s.tickAccumMs)
    (hlast : s.lastTickUpdateMs ≤ now) :
    ((updateUi now s).tickCount : ℚ) * mpt s + (updateUi now s).tickAccumMs
      = (s.tickCount : ℚ) * mpt s + s.tickAccumMs + (now - s.lastTickUpdateMs) := by
  obtain ⟨h1, h2, -⟩ := updateUi_formula hrun hacc hlast
  rw [h1, h2, tickAccumAfter_of_ne now hne]
  push_cast
  ring

/- ------------------------------------------------------------------ -/
/- The invariant holds in every reachable state.                      -/
/- ------------------------------------------------------------------ -/


theorem inv_mono {t : ℚ} {s : ClockState} (h : Inv t s) {u : ℚ} (hle : t ≤ u) :
    Inv u s := by
  obtain ⟨h1, h2, h3, h4, h5, h6, h7, h8, h9⟩ := h
  exact ⟨h1, h2, h3.trans hle, h4, h5.trans hle, h6, h7, h8, h9⟩

theorem inv_updateUi {u : ℚ} {s : ClockState} (h : Inv u s) :
    Inv u (updateUi u s) := by
  obtain ⟨ha, hl0, hlt, hk0, hkt, hfps, htc, hacc0, haccm⟩ := h
  have h0u : 0 ≤ u := le_trans hl0 hlt
  by_cases hrun : s.running = true
  · obtain ⟨hr, hf, h3, h4, h5, h6⟩ := updateUi_run_step hrun hacc0 hkt
    obtain ⟨-, -, hacc, hstart⟩ := updateUi_const u s
    unfold Inv
    rw [hacc, hstart, h3, mpt_congr hf, hf]
    exact ⟨ha, hl0, hlt, h0u, le_rfl, hfps, htc.trans h6, h4, h5⟩
  · replace hrun : s.running = false := by simpa using hrun
    rw [updateUi_notRunning u hrun]
    exact ⟨ha, hl0, hlt, le_rfl, h0u, hfps, htc, hacc0, haccm⟩

theorem inv_play {t : ℚ} {s : ClockState} (h : Inv t s) {u : ℚ}
    (hle : t ≤ u) : Inv u (play u s) := by
  obtain ⟨ha, hl0, hlt, hk0, hkt, hfps, htc, hacc0, haccm⟩ := h
  have h0u : 0 ≤ u := le_trans hl0 (hlt.trans hle)
  unfold play
  by_cases hrun : s.running = true
  · rw [if_pos hrun]
    exact inv_updateUi ⟨ha, hl0, hlt.trans hle, hk0, hkt.trans hle, hfps, htc, hacc0, haccm⟩
  · rw [if_neg hrun]
    exact inv_updateUi ⟨ha, h0u, le_rfl, h0u, le_rfl, hfps, htc, hacc0, haccm⟩

theorem inv_stop {t : ℚ} {s : ClockState} (h : Inv t s) {u : ℚ}
    (hle : t ≤ u) : Inv u (stop u s) := by
  obtain ⟨ha, hl0, hlt, hk0, hkt, hfps, htc, hacc0, haccm⟩ := h
  have h0u : 0 ≤ u := le_trans hl0 (hlt.trans hle)
  unfold stop
  by_cases hrun : s.running = true
  · rw [if_pos hrun]
    have hseg : 0 ≤ s.accumulatedMs + (u - s.lastStartMs) := by
      have : s.lastStartMs ≤ u := hlt.trans hle
      linarith
    exact inv_updateUi ⟨hseg, hl0, hlt.trans hle, hk0, hkt.trans hle, hfps, htc, hacc0, haccm⟩
  · rw [if_neg hrun]
    exact inv_updateUi ⟨ha, hl0, hlt.trans hle, hk0, hkt.trans hle, hfps, htc, hacc0, haccm⟩

theorem inv_reset {t : ℚ} {s : ClockState} (h : Inv t s) {u : ℚ}
    (hle : t ≤ u) : Inv u (reset u s) := by
  obtain ⟨ha, hl0, hlt, hk0, hkt, hfps, htc, hacc0, haccm⟩ := h
  have h0u : 0 ≤ u := le_trans hl0 (hlt.trans hle)
  unfold reset
  exact inv_updateUi ⟨le_rfl, h0u, le_rfl, h0u, le_rfl, hfps, le_rfl, le_rfl, mpt_pos _⟩

theorem inv_commit {t : ℚ} {s : ClockState} (h : Inv t s) (raw : Option ℚ)
    {u : ℚ} (hle : t ≤ u) : Inv u (commitAppliedFps raw u s) := by
  obtain ⟨ha, hl0, hlt, hk0, hkt, hfps, htc, hacc0, haccm⟩ := h
  have h0u : 0 ≤ u := le_trans hl0 (hlt.trans hle)
  cases raw with
  | none => exact inv_mono ⟨ha, hl0, hlt, hk0, hkt, hfps, htc, hacc0, haccm⟩ hle
  | some v =>
    dsimp only [commitAppliedFps]
    by_cases hv : 0 < v
    · rw [if_pos hv]
      refine inv_updateUi ⟨ha, hl0, hlt.trans hle, ?_, ?_, hv, htc, le_rfl, mpt_pos _⟩
      · by_cases hr : s.running = true <;> simp [hr, h0u]
      · by_cases hr : s.running = true <;> simp [hr, h0u]
    · rw [if_neg hv]
      exact inv_mono ⟨ha, hl0, hlt, hk0, hkt, hfps, htc, hacc0, haccm⟩ hle

theorem skipCore_const (un : SkipUnit) (actual : ℚ) (dur : Option ℚ)
    (now : ℚ) (s : ClockState) :
    (skipCore un actual dur now s).running = s.running ∧
    (skipCore un actual dur now s).appliedFps = s.appliedFps ∧
    (skipCore un actual dur now s).tickAccumMs = s.tickAccumMs ∧
    (skipCore un actual dur now s).lastStartMs = s.lastStartMs := by
  unfold skipCore
  by_cases hdt : tickDelta un s.appliedFps actual = 0 <;>
    cases dur <;> split_ifs <;> simp_all

theorem skipCore_lastTick (un : SkipUnit) (actual : ℚ) (dur : Option ℚ)
    (now : ℚ) (s : ClockState) :
    (skipCore un actual dur now s).lastTickUpdateMs
      = (if s.running = true then now else 0) := by
  unfold skipCore
  by_cases hdt : tickDelta un s.appliedFps actual = 0 <;>
    cases dur <;> split_ifs <;> simp_all

theorem skipCore_accum_nonneg (un : SkipUnit) (actual : ℚ) (dur : Option ℚ)
    (now : ℚ) (s : ClockState) :
    0 ≤ (skipCore un actual dur now s).accumulatedMs := by
  unfold skipCore clamp
  by_cases hdt : tickDelta un s.appliedFps actual = 0 <;>
    cases dur <;> split_ifs <;> simp_all

theorem skipCore_tickCount_nonneg (un : SkipUnit) (actual : ℚ)
    (dur : Option ℚ) (now : ℚ) (s : ClockState) (h : 0 ≤ s.tickCount) :
    0 ≤ (skipCore un actual dur now s).tickCount := by
  unfold skipCore
  by_cases hdt : tickDelta un s.appliedFps actual = 0 <;>
    cases dur <;> split_ifs <;> simp_all

theorem inv_skipCore {u : ℚ} {s : ClockState} (h : Inv u s) (un : SkipUnit)
    (actual : ℚ) (dur : Option ℚ) : Inv u (skipCore un actual dur u s) := by
  obtain ⟨ha, hl0, hlt, hk0, hkt, hfps, htc, hacc0, haccm⟩ := h
  have h0u : 0 ≤ u := le_trans hl0 hlt
  obtain ⟨hr, hf, hta, hls⟩ := skipCore_const un actual dur u s
  refine ⟨skipCore_accum_nonneg un actual dur u s, ?_, ?_, ?_, ?_, ?_,
    skipCore_tickCount_nonneg un actual dur u s htc, ?_, ?_⟩
  · rw [hls]; exact hl0
  · rw [hls]; exact hlt
  · rw [skipCore_lastTick]
    by_cases hrb : s.running = true <;> simp [hrb, h0u]
  · rw [skipCore_lastTick]
    by_cases hrb : s.running = true <;> simp [hrb, h0u]
  · rw [hf]; exact hfps
  · rw [hta]; exact hacc0
  · rw [hta, mpt_congr hf]; exact haccm

theorem inv_skip {t : ℚ} {s : ClockState} (h : Inv t s) (amount : Option ℚ)
    (un : SkipUnit) (dir : ℤ) (pc pd : Option ℚ) {u : ℚ} (hle : t ≤ u) :
    Inv u (skipBy amount un dir pc pd u s).1 := by
  cases amount with
  | none => exact inv_mono h hle
  | some numeric =>
    dsimp only [skipBy]
    by_cases hval : numeric < 0 ∨ (dir ≠ -1 ∧ dir ≠ 1)
    · rw [if_pos hval]
      exact inv_mono h hle
    · rw [if_neg hval]
      exact inv_updateUi (inv_skipCore (inv_mono h hle) un _ _)

theorem updateUi_settle (s2 : ClockState) (now : ℚ)
    (hl : s2.lastTickUpdateMs = (if s2.running = true then now else 0))
    (hm : s2.tickAccumMs < mpt s2) :
    updateUi now s2
      = { s2 with lastTickUpdateMs := (if s2.running = true then now else 0),
                  lastShownTick := s2.tickCount } := by
  by_cases hr : s2.running = true
  · rw [if_pos hr] at hl
    rw [updateUi_noTick hr hl hm, if_pos hr, ← hl]
  · replace hr : s2.running = false := by simpa using hr
    rw [updateUi_notRunning now hr, hr]
    simp

theorem clamp_nonneg (v hi : ℚ) : 0 ≤ clamp v 0 hi := le_max_left 0 _

theorem clamp_le_hi (v hi : ℚ) (h : 0 ≤ hi) : clamp v 0 hi ≤ hi :=
  max_le h (min_le_left hi v)

theorem durOpt_pos {d : ℚ} (h : 0 < d) : durOpt (some d) = some d := by
  simp [durOpt, h]

theorem skipBy_valid (a : ℚ) (un : SkipUnit) (dir : ℤ) (pc pd : Option ℚ)
    (now : ℚ) (s : ClockState) (ha : 0 ≤ a) (hdir : dir = -1 ∨ dir = 1) :
    skipBy (some a) un dir pc pd now s
      = (updateUi now
          (skipCore un
            (targetSec (playerBaseSec pc now s + (dir : ℚ) * requestedSec a un) (durOpt pd)
              - playerBaseSec pc now s)
            (durOpt pd) now s),
         some (targetSec (playerBaseSec pc now s + (dir : ℚ) * requestedSec a un) (durOpt pd))) := by
  dsimp only [skipBy]
  rw [if_neg]
  rintro (hlt | ⟨hn1, hn2⟩)
  · exact absurd hlt (not_lt.mpr ha)
  · rcases hdir with h | h
    · exact hn1 h
    · exact hn2 h

theorem skipCore_tickCount (un : SkipUnit) (actual : ℚ) (dur : Option ℚ)
    (now : ℚ) (s : ClockState) (htc : 0 ≤ s.tickCount) :
    (skipCore un actual dur now s).tickCount
      = max 0 (s.tickCount + tickDelta un s.appliedFps actual) := by
  unfold skipCore
  by_cases hdt : tickDelta un s.appliedFps actual = 0
  · cases dur <;> split_ifs <;> simp_all
  · cases dur <;> split_ifs <;> simp_all

theorem skipCore_accum (un : SkipUnit) (actual : ℚ) (dur : Option ℚ)
    (now : ℚ) (s : ClockState) :
    (skipCore un actual dur now s).accumulatedMs
      = (if s.running = true then
          (match dur with
           | some d =>
             clamp (s.accumulatedMs + actual * 1000) 0
               (max 0 (d * 1000 - (now - s.lastStartMs)))
           | none => max 0 (s.accumulatedMs + actual * 1000))
         else
          (match dur with
           | some d => clamp (s.accumulatedMs + actual * 1000) 0 (d * 1000)
           | none => max 0 (s.accumulatedMs + actual * 1000))) := by
  unfold skipCore
  by_cases hdt : tickDelta un s.appliedFps actual = 0 <;>
    cases dur <;> split_ifs <;> simp_all

/- ------------------------------------------------------------------ -/
/- Conservation along a run of advance calls.                         -/
/- ------------------------------------------------------------------ -/

theorem advanceRun_cons (t : ℚ) (l : List ℚ) (s : ClockState) :
    advanceRun (t :: l) s = advanceRun l (updateUi t s) := rfl

theorem advanceRun_append (l1 l2 : List ℚ) (s : ClockState) :
    advanceRun (l1 ++ l2) s = advanceRun l2 (advanceRun l1 s) := by
  unfold advanceRun
  rw [List.foldl_append]

theorem advanceRun_mono (l : List ℚ) (s : ClockState) :
    s.tickCount ≤ (advanceRun l s).tickCount := by
  induction l generalizing s with
  | nil => exact le_rfl
  | cons t l ih =>
    rw [advanceRun_cons]
    exact le_trans (updateUi_mono t s) (ih (updateUi t s))

theorem advanceRun_conserve (l : List ℚ) :
    ∀ (s : ClockState), s.running = true → 0 < s.lastTickUpdateMs →
      0 ≤ s.tickAccumMs → s.tickAccumMs < mpt s →
      List.Chain (fun x y => x ≤ y) s.lastTickUpdateMs l →
      (advanceRun l s).running = true ∧
      (advanceRun l s).appliedFps = s.appliedFps ∧
      0 < (advanceRun l s).lastTickUpdateMs ∧
      0 ≤ (advanceRun l s).tickAccumMs ∧
      (advanceRun l s).tickAccumMs < mpt s ∧
      ((advanceRun l s).tickCount : ℚ) * mpt s + (advanceRun l s).tickAccumMs
          - (advanceRun l s).lastTickUpdateMs
        = (s.tickCount : ℚ) * mpt s + s.tickAccumMs - s.lastTickUpdateMs := by
  induction l with
  | nil =>
    intro s h1 h2 h3 h4 _
    exact ⟨h1, rfl, h2, h3, h4, rfl⟩
  | cons t l ih =>
    intro s h1 h2 h3 h4 hchain
    rw [List.chain_cons] at hchain
    obtain ⟨hle, hchain'⟩ := hchain
    rw [advanceRun_cons]
    have hne : s.lastTickUpdateMs ≠ 0 := ne_of_gt h2
    obtain ⟨hr1, hf1, hl1, ha1, hm1, -⟩ := updateUi_run_step h1 h3 hle
    have hcons := updateUi_conserve h1 hne h3 hle
    have h2' : 0 < (updateUi t s).lastTickUpdateMs := by
      rw [hl1]
      exact lt_of_lt_of_le h2 hle
    have hm1' : (updateUi t s).tickAccumMs < mpt (updateUi t s) := by
      rw [mpt_congr hf1]
      exact hm1
    have hchain1 : List.Chain (fun x y => x ≤ y) (updateUi t s).lastTickUpdateMs l := by
      rw [hl1]
      exact hchain'
    obtain ⟨g1, g2, g3, g4, g5, g6⟩ := ih (updateUi t s) hr1 h2' ha1 hm1' hchain1
    rw [mpt_congr hf1] at g5 g6
    refine ⟨g1, g2.trans hf1, g3, g4, g5, ?_⟩
    rw [g6, hl1]
    linarith [hcons]

theorem floor_of_decomp {k : ℤ} {T m acc : ℚ} (hm : 0 < m)
    (h : T = (k : ℚ) * m + acc) (h0 : 0 ≤ acc) (h1 : acc < m) :
    ⌊T / m⌋ = k := by
  rw [Int.floor_eq_iff]
  constructor
  · rw [le_div_iff₀ hm]
    linarith
  · rw [div_lt_iff₀ hm]
    have he : ((k : ℚ) + 1) * m = (k : ℚ) * m + m := by ring
    linarith [he]

theorem reachable_inv {t : ℚ} {s : ClockState} (h : Reachable t s) :
    Inv t s := by
  induction h with
  | init t ht =>
    refine ⟨le_rfl, le_rfl, ht, le_rfl, ht, ?_, le_rfl, le_rfl, ?_⟩
    · unfold initState DEFAULT_FPS; norm_num
    · unfold initState mpt DEFAULT_FPS; norm_num
  | wait h hle ih => exact inv_mono ih hle
  | frame h hle ih => exact inv_updateUi (inv_mono ih hle)
  | doPlay h hle ih => exact inv_play ih hle
  | doStop h hle ih => exact inv_stop ih hle
  | doReset h hle ih => exact inv_reset ih hle
  | doCommit h raw hle ih => exact inv_commit ih raw hle
  | doSkip h amount unit dir pc pd hle ih => exact inv_skip ih amount unit dir pc pd hle

/- ------------------------------------------------------------------ -/
/- Claim theorems.                                                    -/
/- ------------------------------------------------------------------ -/

/-- Claim C4 (confirmed): for every finite positive `newRate` and every
prior state, `commitRate(newRate)` sets `appliedRate = newRate`, sets
`tickAccumulatorMs = 0`, sets `lastTickTimestamp` to `now` when running and
to null (`0`) otherwise, and leaves `tickCount` (and the wall-clock fields)
unchanged as a direct effect — it never recomputes `tickCount` from wall
elapsed time. -/
theorem commitRate_effects (s : ClockState) (now v : ℚ) (hv : 0 < v) :
    (commitAppliedFps (some v) now s).appliedFps = v ∧
    (commitAppliedFps (some v) now s).tickAccumMs = 0 ∧
    (commitAppliedFps (some v) now s).lastTickUpdateMs
        = (if s.running = true then now else 0) ∧
    (commitAppliedFps (some v) now s).tickCount = s.tickCount ∧
    (commitAppliedFps (some v) now s).accumulatedMs = s.accumulatedMs ∧
    (commitAppliedFps (some v) now s).running = s.running ∧
    (commitAppliedFps (some v) now s).lastStartMs = s.lastStartMs := by
  dsimp only [commitAppliedFps]
  rw [if_pos hv, updateUi_settle _ now rfl (mpt_pos _)]
  exact ⟨rfl, rfl, rfl, rfl, rfl, rfl, rfl⟩

/-- Witness for C4 at `s = initState`, `now = 7`, `v = 30`. -/
theorem commitRate_effects_witness :
    (commitAppliedFps (some 30) 7 initState).appliedFps = 30 ∧
    (commitAppliedFps (some 30) 7 initState).tickAccumMs = 0 ∧
    (commitAppliedFps (some 30) 7 initState).lastTickUpdateMs
        = (if initState.running = true then (7 : ℚ) else 0) ∧
    (commitAppliedFps (some 30) 7 initState).tickCount = initState.tickCount ∧
    (commitAppliedFps (some 30) 7 initState).accumulatedMs = initState.accumulatedMs ∧
    (commitAppliedFps (some 30) 7 initState).running = initState.running ∧
    (commitAppliedFps (some 30) 7 initState).lastStartMs = initState.lastStartMs :=
  commitRate_effects initState 7 30 (by norm_num)

/-- Claim C7 (confirmed): a non-finite (`none`) or non-positive rate is
rejected by `commitRate` and no state is mutated: the resulting state equals
the prior state in every field. -/
theorem commitRate_invalid (s : ClockState) (now : ℚ) (raw : Option ℚ)
    (h : raw = none ∨ ∃ v, raw = some v ∧ v ≤ 0) :
    commitAppliedFps raw now s = s := by
  rcases h with h | ⟨v, hv, hv0⟩
  · rw [h]
    rfl
  · rw [hv]
    dsimp only [commitAppliedFps]
    rw [if_neg (not_lt.mpr hv0)]

/-- Witness for C7 at the invalid rate `-3`. -/
theorem commitRate_invalid_witness :
    commitAppliedFps (some (-3)) 9 initState = initState :=
  commitRate_invalid initState 9 (some (-3)) (Or.inr ⟨-3, rfl, by norm_num⟩)

/-- Claim C8 (confirmed): a non-finite (`none`) or negative amount, or a
direction other than `-1`/`+1`, makes `skipBy` silently no-op: the state is
unchanged and no seek is sent to the player. -/
theorem skipBy_invalid (s : ClockState) (now : ℚ) (amount : Option ℚ)
    (un : SkipUnit) (dir : ℤ) (pc pd : Option ℚ)
    (h : amount = none ∨ (∃ a, amount = some a ∧ a < 0) ∨ (dir ≠ -1 ∧ dir ≠ 1)) :
    skipBy amount un dir pc pd now s = (s, none) := by
  rcases h with h | ⟨a, ha, ha0⟩ | hdir
  · rw [h]
    rfl
  · rw [ha]
    dsimp only [skipBy]
    rw [if_pos (Or.inl ha0)]
  · cases amount with
    | none => rfl
    | some a =>
      dsimp only [skipBy]
      by_cases ha0 : a < 0
      · rw [if_pos (Or.inl ha0)]
      · rw [if_pos (Or.inr hdir)]

/-- Witness for C8 at the invalid amount `-1`. -/
theorem skipBy_invalid_witness :
    skipBy (some (-1)) SkipUnit.ticks 1 none none 0 initState = (initState, none) :=
  skipBy_invalid initState 0 (some (-1)) SkipUnit.ticks 1 none none
    (Or.inr (Or.inl ⟨-1, rfl, by norm_num⟩))

/-- Claim C9 (confirmed): `reset()` always yields `tickCount = 0`,
`accumulatedMs = 0`, `tickAccumulatorMs = 0`, `running = true`,
`runStartTimestamp = now` and `lastTickTimestamp = now`, regardless of the
prior state; and it is the only operation that zeroes both clocks together —
each of the other operations leaves the tick clock nonzero from at least one
prior state (`probeC9`). -/
theorem reset_spec (s : ClockState) (now : ℚ) :
    (reset now s).tickCount = 0 ∧
    (reset now s).accumulatedMs = 0 ∧
    (reset now s).tickAccumMs = 0 ∧
    (reset now s).running = true ∧
    (reset now s).lastStartMs = now ∧
    (reset now s).lastTickUpdateMs = now ∧
    (updateUi 0 probeC9).tickCount ≠ 0 ∧
    (play 0 probeC9).tickCount ≠ 0 ∧
    (stop 0 probeC9).tickCount ≠ 0 ∧
    (commitAppliedFps (some 1) 0 probeC9).tickCount ≠ 0 ∧
    ((skipBy (some 0) SkipUnit.seconds 1 none none 0 probeC9).1).tickCount ≠ 0 := by
  have hfields : reset now s
      = { s with accumulatedMs := 0, lastStartMs := now, running := true,
                 tickCount := 0, tickAccumMs := 0, lastTickUpdateMs := now,
                 lastShownTick := 0 } := by
    unfold reset
    rw [updateUi_settle _ now rfl (mpt_pos _)]
    simp
  refine ⟨?_, ?_, ?_, ?_, ?_, ?_, ?_, ?_, ?_, ?_, ?_⟩
  · rw [hfields]
  · rw [hfields]
  · rw [hfields]
  · rw [hfields]
  · rw [hfields]
  · rw [hfields]
  · norm_num [probeC9, initState, updateUi, tickAccumAfter, mpt, DEFAULT_FPS]
  · norm_num [probeC9, initState, play, updateUi, tickAccumAfter, mpt, DEFAULT_FPS]
  · norm_num [probeC9, initState, stop, updateUi, tickAccumAfter, mpt, DEFAULT_FPS]
  · norm_num [probeC9, initState, commitAppliedFps, updateUi, tickAccumAfter, mpt,
      DEFAULT_FPS]
  · norm_num [probeC9, initState, skipBy, skipCore, updateUi, tickAccumAfter, mpt,
      DEFAULT_FPS, targetSec, durOpt, playerBaseSec, wallElapsedMs, requestedSec,
      tickDelta, jsRound, clamp, Option.getD]

/-- Claim C10 (confirmed): a valid `skipBy`, modelled at a single timestamp,
leaves `appliedFps`, `tickAccumMs`, `running` and `lastStartMs` unchanged —
it mutates only `tickCount`, `accumulatedMs`, `lastTickUpdateMs` and the
`lastShownTick` display cache. -/
theorem skipBy_frame (s : ClockState) (now a : ℚ) (un : SkipUnit) (dir : ℤ)
    (pc pd : Option ℚ) (ha : 0 ≤ a) (hdir : dir = -1 ∨ dir = 1)
    (haccm : s.tickAccumMs < mpt s) :
    (skipBy (some a) un dir pc pd now s).1.appliedFps = s.appliedFps ∧
    (skipBy (some a) un dir pc pd now s).1.tickAccumMs = s.tickAccumMs ∧
    (skipBy (some a) un dir pc pd now s).1.running = s.running ∧
    (skipBy (some a) un dir pc pd now s).1.lastStartMs = s.lastStartMs := by
  rw [skipBy_valid a un dir pc pd now s ha hdir]
  dsimp only
  obtain ⟨hr, hf, hta, hls⟩ := skipCore_const un
    (targetSec (playerBaseSec pc now s + (dir : ℚ) * requestedSec a un) (durOpt pd)
      - playerBaseSec pc now s) (durOpt pd) now s
  rw [updateUi_settle _ now (by rw [skipCore_lastTick, hr]) (by rw [hta, mpt_congr hf]; exact haccm)]
  exact ⟨hf, hta, hr, hls⟩

/-- Witness for C10: a one-second forward skip from `initState` with the
player at position 4 and no known duration. -/
theorem skipBy_frame_witness :
    (skipBy (some 1) SkipUnit.seconds 1 (some 4) none 0 initState).1.appliedFps
        = initState.appliedFps ∧
    (skipBy (some 1) SkipUnit.seconds 1 (some 4) none 0 initState).1.tickAccumMs
        = initState.tickAccumMs ∧
    (skipBy (some 1) SkipUnit.seconds 1 (some 4) none 0 initState).1.running
        = initState.running ∧
    (skipBy (some 1) SkipUnit.seconds 1 (some 4) none 0 initState).1.lastStartMs
        = initState.lastStartMs :=
  skipBy_frame initState 0 1 SkipUnit.seconds 1 (some 4) none (by norm_num)
    (Or.inr rfl) (by norm_num [mpt, initState, DEFAULT_FPS])


/-- Claim C1 (counterexample): the claim quantifies over every engine state
with `running = true`; at the (unreachable) state `probeC1`, whose
`lastTickTimestamp` is null but whose accumulator already holds 2000 ms,
the null-baseline call does NOT leave `tickCount` unchanged — the backlog
in the accumulator is still converted into ticks (120 of them at 60 fps). -/
theorem advance_baseline_cex :
    probeC1.running = true ∧ probeC1.lastTickUpdateMs = 0 ∧
    (advance 5 probeC1).tickCount ≠ probeC1.tickCount := by
  refine ⟨rfl, rfl, ?_⟩
  have h : (advance 5 probeC1).tickCount = 120 := by
    norm_num [advance, updateUi, probeC1, mpt, tickAccumAfter, DEFAULT_FPS]
  rw [h]
  norm_num [probeC1]

/-- Claim C1 (amended): for every engine state with `running = true` that
satisfies the reachable-state bounds `0 ≤ tickAccumulatorMs < msPerTick` and
`lastTickTimestamp ≤ now`, `advance(now)` behaves as claimed: if
`lastTickTimestamp` is null it is set to `now` and the call produces zero
delta, leaving `tickCount` and `tickAccumulatorMs` unchanged; otherwise,
with `msPerTick = 1000 / max(1, appliedRate)`, the delta is banked and
`tickCount` is incremented by `⌊tickAccumulatorMs' / msPerTick⌋` in one
integer-division step while that many whole ticks of milliseconds are
subtracted. -/
theorem advance_step_amended (s : ClockState) (now : ℚ)
    (hrun : s.running = true) (hacc0 : 0 ≤ s.tickAccumMs)
    (haccm : s.tickAccumMs < mpt s) (hlast : s.lastTickUpdateMs ≤ now) :
    (s.lastTickUpdateMs = 0 →
      advance now s
        = { s with lastTickUpdateMs := now, lastShownTick := s.tickCount }) ∧
    (s.lastTickUpdateMs ≠ 0 →
      (advance now s).lastTickUpdateMs = now ∧
      (advance now s).tickCount
        = s.tickCount
          + ⌊(s.tickAccumMs + (now - s.lastTickUpdateMs)) / mpt s⌋ ∧
      (advance now s).tickAccumMs
        = s.tickAccumMs + (now - s.lastTickUpdateMs)
          - ⌊(s.tickAccumMs + (now - s.lastTickUpdateMs)) / mpt s⌋ * mpt s) := by
  constructor
  · intro h0
    show updateUi now s = _
    unfold updateUi
    rw [hrun, if_pos rfl, tickAccumAfter_null now h0, if_neg (not_le.mpr haccm)]
  · intro hne
    obtain ⟨h1, h2, h3⟩ := updateUi_formula hrun hacc0 hlast
    rw [tickAccumAfter_of_ne now hne] at h1 h2
    exact ⟨h3, h1, h2⟩

/-- Witness for the amended C1: a running state with baseline `1`, advanced
at `now = 2`. -/
theorem advance_step_amended_witness :
    let s : ClockState := { initState with running := true, lastTickUpdateMs := 1 }
    (s.lastTickUpdateMs = 0 →
      advance 2 s = { s with lastTickUpdateMs := 2, lastShownTick := s.tickCount }) ∧
    (s.lastTickUpdateMs ≠ 0 →
      (advance 2 s).lastTickUpdateMs = 2 ∧
      (advance 2 s).tickCount
        = s.tickCount + ⌊(s.tickAccumMs + (2 - s.lastTickUpdateMs)) / mpt s⌋ ∧
      (advance 2 s).tickAccumMs
        = s.tickAccumMs + (2 - s.lastTickUpdateMs)
          - ⌊(s.tickAccumMs + (2 - s.lastTickUpdateMs)) / mpt s⌋ * mpt s) :=
  advance_step_amended { initState with running := true, lastTickUpdateMs := 1 } 2
    rfl le_rfl (by norm_num [mpt, initState, DEFAULT_FPS]) (by norm_num [initState])

/-- Claim C5 (confirmed): in every reachable state, after an advance step
the tick accumulator lies in `[0, 1000 / appliedRate)` — also for rates
below 1 committed via `commitRate`, since the engine's own reduction bound
`1000 / max(1, appliedRate)` is at most `1000 / appliedRate` for every
positive rate. -/
theorem tickAccum_interval (t now : ℚ) (s : ClockState) (h : Reachable t s)
    (hle : t ≤ now) :
    0 ≤ (advance now s).tickAccumMs ∧
    (advance now s).tickAccumMs < 1000 / (advance now s).appliedFps := by
  obtain ⟨-, -, -, -, -, hfps, -, hacc, haccm⟩ :=
    inv_updateUi (inv_mono (reachable_inv h) hle)
  exact ⟨hacc, lt_of_lt_of_le haccm (mpt_le _ hfps)⟩

/-- Witness for C5: advance at `now = 5` from the reachable state obtained
by committing the sub-unit rate `1/2` at `t = 0`. -/
theorem tickAccum_interval_witness :
    0 ≤ (advance 5 (commitAppliedFps (some (1/2)) 0 initState)).tickAccumMs ∧
    (advance 5 (commitAppliedFps (some (1/2)) 0 initState)).tickAccumMs
      < 1000 / (advance 5 (commitAppliedFps (some (1/2)) 0 initState)).appliedFps :=
  tickAccum_interval 0 5 _
    (Reachable.doCommit (Reachable.init 0 le_rfl) (some (1/2)) le_rfl)
    (by norm_num)


/-- Claim C2 (counterexample): with the committed rate `R = 1/2` (reachable
via `play` at `t = 1` then `commitRate (1/2)` at `t = 1`), a single advance
at `t = 10001` (total elapsed `T = 10000` ms) yields `tickCount = 10`,
because the engine reduces with `msPerTick = 1000 / max(1, R) = 1000`; the
claimed value `⌊T / (1000 / R)⌋ = 5` is off by 5, not within one tick. -/
theorem advanceRun_total_cex :
    probeC2.running = true ∧ probeC2.appliedFps = 1/2 ∧
    probeC2.tickCount = 0 ∧ probeC2.tickAccumMs = 0 ∧
    probeC2.lastTickUpdateMs = 1 ∧
    (advanceRun [10001] probeC2).tickCount = 10 ∧
    ¬ ((advanceRun [10001] probeC2).tickCount
        - ⌊((10001 : ℚ) - 1) / (1000 / (1/2 : ℚ))⌋).natAbs ≤ 1 := by
  have hpc : probeC2
      = { accumulatedMs := 0, lastStartMs := 1, running := true,
          appliedFps := 1/2, lastShownTick := 0, tickCount := 0, tickAccumMs := 0,
          lastTickUpdateMs := 1 } := by
    norm_num [probeC2, commitAppliedFps, play, updateUi, initState, mpt,
      tickAccumAfter, DEFAULT_FPS]
  have hrun : (advanceRun [10001] probeC2).tickCount = 10 := by
    rw [hpc]
    norm_num [advanceRun, advance, List.foldl, updateUi, mpt, tickAccumAfter]
  have hfl : ⌊((10001 : ℚ) - 1) / (1000 / (1/2 : ℚ))⌋ = 5 := by norm_num
  refine ⟨by rw [hpc], by rw [hpc], by rw [hpc], by rw [hpc], by rw [hpc], hrun, ?_⟩
  rw [hrun, hfl]
  decide

/-- Claim C2 (amended): for every sequence of `advance` calls while running
with a fixed positive `appliedRate`, starting from an empty accumulator and
a live baseline, the final `tickCount` equals the initial one plus exactly
`⌊T / msPerTick⌋`, where `T` is the total elapsed wall time between the
baseline and the last call and `msPerTick = 1000 / max(1, appliedRate)` is
the engine's clamped tick length (for rates `≥ 1` this is the claimed
`1000 / R`); and `tickCount` is monotonically non-decreasing across the
sequence. -/
theorem advanceRun_total (s : ClockState) (l1 l2 : List ℚ)
    (hrun : s.running = true) (hl : 0 < s.lastTickUpdateMs)
    (hacc : s.tickAccumMs = 0)
    (hchain : List.Chain (fun x y => x ≤ y) s.lastTickUpdateMs (l1 ++ l2)) :
    (advanceRun (l1 ++ l2) s).tickCount
      = s.tickCount
        + ⌊((advanceRun (l1 ++ l2) s).lastTickUpdateMs - s.lastTickUpdateMs)
            / mpt s⌋ ∧
    s.tickCount ≤ (advanceRun l1 s).tickCount ∧
    (advanceRun l1 s).tickCount ≤ (advanceRun (l1 ++ l2) s).tickCount := by
  have h3 : 0 ≤ s.tickAccumMs := le_of_eq hacc.symm
  have h4 : s.tickAccumMs < mpt s := by
    rw [hacc]
    exact mpt_pos s
  obtain ⟨g1, g2, g3, g4, g5, g6⟩ :=
    advanceRun_conserve (l1 ++ l2) s hrun hl h3 h4 hchain
  refine ⟨?_, advanceRun_mono l1 s, ?_⟩
  · rw [hacc] at g6
    have hT : (advanceRun (l1 ++ l2) s).lastTickUpdateMs - s.lastTickUpdateMs
        = (((advanceRun (l1 ++ l2) s).tickCount - s.tickCount : ℤ) : ℚ) * mpt s
          + (advanceRun (l1 ++ l2) s).tickAccumMs := by
      push_cast
      linarith
    have hfl := floor_of_decomp (mpt_pos s) hT g4 g5
    omega
  · rw [advanceRun_append]
    exact advanceRun_mono l2 (advanceRun l1 s)

/-- Witness for the amended C2: the run `[2] ++ [3]` from the running state
`play 1 initState`. -/
theorem advanceRun_total_witness :
    (advanceRun ([2] ++ [3]) (play 1 initState)).tickCount
      = (play 1 initState).tickCount
        + ⌊((advanceRun ([2] ++ [3]) (play 1 initState)).lastTickUpdateMs
            - (play 1 initState).lastTickUpdateMs) / mpt (play 1 initState)⌋ ∧
    (play 1 initState).tickCount ≤ (advanceRun [2] (play 1 initState)).tickCount ∧
    (advanceRun [2] (play 1 initState)).tickCount
      ≤ (advanceRun ([2] ++ [3]) (play 1 initState)).tickCount :=
  advanceRun_total (play 1 initState) [2] [3]
    (by norm_num [play, updateUi, initState, mpt, tickAccumAfter, DEFAULT_FPS])
    (by norm_num [play, updateUi, initState, mpt, tickAccumAfter, DEFAULT_FPS])
    (by norm_num [play, updateUi, initState, mpt, tickAccumAfter, DEFAULT_FPS])
    (by norm_num [play, updateUi, initState, mpt, tickAccumAfter, DEFAULT_FPS,
      List.chain_cons])


theorem durOpt_pos_of_eq {pd : Option ℚ} {d : ℚ} (h : durOpt pd = some d) :
    0 < d := by
  cases pd with
  | none => simp [durOpt] at h
  | some x =>
    simp only [durOpt] at h
    split_ifs at h with hx
    injection h with h
    rw [← h]
    exact hx

/-- Claim C3 (confirmed): for a valid skip (`0 ≤ amount`, direction `±1`)
with `currentPlayerSeconds` either the player's reported position or the
wall-derived fallback, and `durationSeconds` either the player's finite
positive report or the unbounded fallback (player absent / `getDuration`
failing / non-positive), the target is `clamp(cur + dir·requestedSec, 0,
durationSeconds)` (no upper clamp in the unbounded case) and
`actual = target - cur`; `tickCount` becomes
`max 0 (tickCount + round(actual · rate))` with `rate = DEFAULT_FPS` for
the ticks unit and `appliedFps` for the seconds unit; `accumulatedMs` is
moved by `actual · 1000`, clamped below by 0 and — when the duration is
finite — above by the duration, accounting for the live running segment;
both clocks use the same `actual`; the seek request is `some target`; the
resulting wall elapsed time is nonnegative and, when the duration is
finite, cannot come to exceed `d · 1000` if it did not already. -/
theorem skipBy_reconcile (s : ClockState) (now a : ℚ) (un : SkipUnit)
    (dir : ℤ) (pc pd : Option ℚ) (ha : 0 ≤ a) (hdir : dir = -1 ∨ dir = 1)
    (htc : 0 ≤ s.tickCount) (haccm : s.tickAccumMs < mpt s)
    (hacc : 0 ≤ s.accumulatedMs)
    (hlast : s.running = true → s.lastStartMs ≤ now) :
    (skipBy (some a) un dir pc pd now s).1.tickCount
        = max 0 (s.tickCount
            + tickDelta un s.appliedFps
                (targetSec (playerBaseSec pc now s + (dir : ℚ) * requestedSec a un)
                    (durOpt pd)
                  - playerBaseSec pc now s)) ∧
    (skipBy (some a) un dir pc pd now s).2
        = some (targetSec (playerBaseSec pc now s + (dir : ℚ) * requestedSec a un)
            (durOpt pd)) ∧
    (durOpt pd = none →
      (skipBy (some a) un dir pc pd now s).1.accumulatedMs
        = max 0 (s.accumulatedMs
            + (targetSec (playerBaseSec pc now s + (dir : ℚ) * requestedSec a un)
                  (durOpt pd)
                - playerBaseSec pc now s) * 1000)) ∧
    (∀ d : ℚ, durOpt pd = some d →
      (skipBy (some a) un dir pc pd now s).1.accumulatedMs
        = (if s.running = true then
            clamp
              (s.accumulatedMs
                + (targetSec (playerBaseSec pc now s + (dir : ℚ) * requestedSec a un)
                      (durOpt pd)
                    - playerBaseSec pc now s) * 1000)
              0 (max 0 (d * 1000 - (now - s.lastStartMs)))
           else
            clamp
              (s.accumulatedMs
                + (targetSec (playerBaseSec pc now s + (dir : ℚ) * requestedSec a un)
                      (durOpt pd)
                    - playerBaseSec pc now s) * 1000)
              0 (d * 1000))) ∧
    0 ≤ wallElapsedMs now (skipBy (some a) un dir pc pd now s).1 ∧
    (∀ d : ℚ, durOpt pd = some d → wallElapsedMs now s ≤ d * 1000 →
      wallElapsedMs now (skipBy (some a) un dir pc pd now s).1 ≤ d * 1000) := by
  rw [skipBy_valid a un dir pc pd now s ha hdir]
  set cur := playerBaseSec pc now s with hcur
  set T := targetSec (cur + (dir : ℚ) * requestedSec a un) (durOpt pd) with hT
  set A := T - cur with hA
  obtain ⟨hr, hf, hta, hls⟩ := skipCore_const un A (durOpt pd) now s
  rw [updateUi_settle _ now (by rw [skipCore_lastTick, hr])
    (by rw [hta, mpt_congr hf]; exact haccm)]
  dsimp only
  unfold wallElapsedMs
  dsimp only
  rw [hr, hls, skipCore_tickCount un A (durOpt pd) now s htc,
    skipCore_accum un A (durOpt pd) now s]
  refine ⟨rfl, rfl, ?_, ?_, ?_, ?_⟩
  · intro hnone
    rw [hnone]
    dsimp only
    by_cases hrb : s.running = true
    · rw [if_pos hrb]
    · rw [if_neg hrb]
  · intro d hd
    rw [hd]
  · cases hDc : durOpt pd with
    | none =>
      dsimp only
      have h2 : 0 ≤ max 0 (s.accumulatedMs + A * 1000) := le_max_left 0 _
      by_cases hrb : s.running = true
      · rw [if_pos hrb, if_pos hrb]
        have h1 : 0 ≤ now - s.lastStartMs := by
          have := hlast hrb
          linarith
        linarith
      · rw [if_neg hrb, if_neg hrb]
        linarith
    | some d =>
      dsimp only
      by_cases hrb : s.running = true
      · rw [if_pos hrb, if_pos hrb]
        have h1 : 0 ≤ now - s.lastStartMs := by
          have := hlast hrb
          linarith
        have h2 := clamp_nonneg (s.accumulatedMs + A * 1000)
          (max 0 (d * 1000 - (now - s.lastStartMs)))
        linarith
      · rw [if_neg hrb, if_neg hrb]
        have h2 := clamp_nonneg (s.accumulatedMs + A * 1000) (d * 1000)
        linarith
  · intro d hd hpre
    have hdpos : 0 < d := durOpt_pos_of_eq hd
    rw [hd]
    dsimp only
    by_cases hrb : s.running = true
    · rw [if_pos hrb, if_pos hrb]
      rw [if_pos hrb] at hpre
      have hseg : now - s.lastStartMs ≤ d * 1000 := by linarith
      have hmaxeq : max 0 (d * 1000 - (now - s.lastStartMs))
          = d * 1000 - (now - s.lastStartMs) := max_eq_right (by linarith)
      rw [hmaxeq]
      have hcl := clamp_le_hi (s.accumulatedMs + A * 1000)
        (d * 1000 - (now - s.lastStartMs)) (by linarith)
      linarith
    · rw [if_neg hrb, if_neg hrb]
      rw [if_neg hrb] at hpre
      have hcl := clamp_le_hi (s.accumulatedMs + A * 1000)
        (d * 1000) (mul_nonneg hdpos.le (by norm_num))
      linarith

/-- Witness for C3 covering both duration cases: the spec's no-player
scenario — skip 120 ticks forward with no player and no duration limit from
the stopped `initState` (wall moves by exactly 2000 ms via the `max 0`
fallback, `tickCount` by 120) — and the spec's clamping scenario — duration
10 s, player at 9 s, skip forward 5 s (the target clamps to 10 and the
wall-elapsed duration bound is preserved). -/
theorem skipBy_reconcile_witness :
    (skipBy (some 120) SkipUnit.ticks 1 none none 0 initState).1.tickCount
        = max 0 (initState.tickCount
            + tickDelta SkipUnit.ticks initState.appliedFps
                (targetSec (playerBaseSec none 0 initState
                    + ((1 : ℤ) : ℚ) * requestedSec 120 SkipUnit.ticks) (durOpt none)
                  - playerBaseSec none 0 initState)) ∧
    (skipBy (some 120) SkipUnit.ticks 1 none none 0 initState).2
        = some (targetSec (playerBaseSec none 0 initState
            + ((1 : ℤ) : ℚ) * requestedSec 120 SkipUnit.ticks) (durOpt none)) ∧
    (skipBy (some 120) SkipUnit.ticks 1 none none 0 initState).1.accumulatedMs
        = max 0 (initState.accumulatedMs
            + (targetSec (playerBaseSec none 0 initState
                  + ((1 : ℤ) : ℚ) * requestedSec 120 SkipUnit.ticks) (durOpt none)
                - playerBaseSec none 0 initState) * 1000) ∧
    0 ≤ wallElapsedMs 0 (skipBy (some 120) SkipUnit.ticks 1 none none 0 initState).1 ∧
    (skipBy (some 5) SkipUnit.seconds 1 (some 9) (some 10) 0 initState).1.tickCount
        = max 0 (initState.tickCount
            + tickDelta SkipUnit.seconds initState.appliedFps
                (targetSec (playerBaseSec (some 9) 0 initState
                    + ((1 : ℤ) : ℚ) * requestedSec 5 SkipUnit.seconds) (durOpt (some 10))
                  - playerBaseSec (some 9) 0 initState)) ∧
    (skipBy (some 5) SkipUnit.seconds 1 (some 9) (some 10) 0 initState).1.accumulatedMs
        = (if initState.running = true then
            clamp
              (initState.accumulatedMs
                + (targetSec (playerBaseSec (some 9) 0 initState
                      + ((1 : ℤ) : ℚ) * requestedSec 5 SkipUnit.seconds) (durOpt (some 10))
                    - playerBaseSec (some 9) 0 initState) * 1000)
              0 (max 0 (10 * 1000 - (0 - initState.lastStartMs)))
           else
            clamp
              (initState.accumulatedMs
                + (targetSec (playerBaseSec (some 9) 0 initState
                      + ((1 : ℤ) : ℚ) * requestedSec 5 SkipUnit.seconds) (durOpt (some 10))
                    - playerBaseSec (some 9) 0 initState) * 1000)
              0 (10 * 1000)) ∧
    (wallElapsedMs 0 initState ≤ 10 * 1000 →
      wallElapsedMs 0 (skipBy (some 5) SkipUnit.seconds 1 (some 9) (some 10) 0 initState).1
        ≤ 10 * 1000) := by
  obtain ⟨g1, g2, g3, -, g5, -⟩ :=
    skipBy_reconcile initState 0 120 SkipUnit.ticks 1 none none (by norm_num)
      (Or.inr rfl) le_rfl (by norm_num [mpt, initState, DEFAULT_FPS]) le_rfl
      (by intro hcon; simp [initState] at hcon)
  obtain ⟨h1, -, -, h4, -, h6⟩ :=
    skipBy_reconcile initState 0 5 SkipUnit.seconds 1 (some 9) (some 10) (by norm_num)
      (Or.inr rfl) le_rfl (by norm_num [mpt, initState, DEFAULT_FPS]) le_rfl
      (by intro hcon; simp [initState] at hcon)
  exact ⟨g1, g2, g3 rfl, g5, h1, h4 10 (by norm_num [durOpt]), h6 10 (by norm_num [durOpt])⟩


/-- Claim C6 (counterexample): the wall clock is never stopped at the video
duration — `advance` keeps it growing while `running = true`.  The state
`probeC6` is reachable (play at `t = 1`, then at `t = 20001` a zero-length
skip during which the player reports the finite duration 10 s), yet its wall
elapsed time at `t = 20001` is 20000 ms, exceeding `10 * 1000`. -/
theorem wallElapsed_cex :
    Reachable 20001 probeC6 ∧ probeC6.running = true ∧
    wallElapsedMs 20001 probeC6 = 20000 ∧
    ¬ wallElapsedMs 20001 probeC6 ≤ 10 * 1000 := by
  have hreach : Reachable 20001 probeC6 := by
    unfold probeC6
    exact Reachable.doSkip
      (Reachable.doPlay (Reachable.init 1 (by norm_num)) le_rfl)
      (some 0) SkipUnit.seconds 1 none (some 10) (by norm_num)
  have hval : probeC6
      = { accumulatedMs := 0, lastStartMs := 1, running := true,
          appliedFps := 60, lastShownTick := 0, tickCount := 0,
          tickAccumMs := 0, lastTickUpdateMs := 20001 } := by
    norm_num [probeC6, skipBy, skipCore, play, updateUi, initState, mpt,
      tickAccumAfter, DEFAULT_FPS, targetSec, durOpt, playerBaseSec,
      wallElapsedMs, requestedSec, tickDelta, jsRound, clamp, Option.getD]
  refine ⟨hreach, by rw [hval], ?_, ?_⟩
  · rw [hval]
    norm_num [wallElapsedMs]
  · rw [hval]
    norm_num [wallElapsedMs]

/-- Claim C6 (amended): in every reachable state and at every later
timestamp, the wall elapsed time `accumulatedMs + (running ? now -
runStartTimestamp : 0)` is nonnegative; the duration bound holds only where
the code enforces it — immediately after a `skipBy` performed while not
running with the player reporting a finite duration `d`, the wall elapsed
time is at most `d * 1000` — and is NOT maintained while `advance` keeps
running past the end of the video. -/
theorem wallElapsed_amended :
    (∀ (t now : ℚ) (s : ClockState), Reachable t s → t ≤ now →
      0 ≤ wallElapsedMs now s) ∧
    (∀ (s : ClockState) (now a d : ℚ) (un : SkipUnit) (dir : ℤ)
        (pc : Option ℚ), s.running = false → 0 ≤ a → (dir = -1 ∨ dir = 1) →
      0 < d →
      wallElapsedMs now (skipBy (some a) un dir pc (some d) now s).1
        ≤ d * 1000) := by
  constructor
  · intro t now s h hle
    obtain ⟨ha, hl0, hlt, hk0, hkt, hfps, htc, hacc0, haccm⟩ :=
      inv_mono (reachable_inv h) hle
    unfold wallElapsedMs
    by_cases hr : s.running = true
    · rw [if_pos hr]
      linarith
    · rw [if_neg hr]
      linarith
  · intro s now a d un dir pc hnr ha hdir hd
    rw [skipBy_valid a un dir pc (some d) now s ha hdir, durOpt_pos hd]
    dsimp only [targetSec]
    set cur := playerBaseSec pc now s with hcur
    set T := clamp (cur + (dir : ℚ) * requestedSec a un) 0 d with hT
    set A := T - cur with hA
    obtain ⟨hr, hf, hta, hls⟩ := skipCore_const un A (some d) now s
    have hr2 : (skipCore un A (some d) now s).running = false := by
      rw [hr, hnr]
    rw [updateUi_notRunning now hr2]
    unfold wallElapsedMs
    dsimp only
    rw [hr2, skipCore_accum un A (some d) now s, hnr]
    dsimp only
    have hcl := clamp_le_hi (s.accumulatedMs + A * 1000)
      (d * 1000) (mul_nonneg hd.le (by norm_num))
    simp only [if_neg (by norm_num : ¬(false = true))]
    linarith

/-- Witness for the amended C6: nonnegativity at `initState`, and the
post-skip duration bound for a 1-second skip against a 2-second video
from the stopped `initState`. -/
theorem wallElapsed_amended_witness :
    0 ≤ wallElapsedMs 0 initState ∧
    wallElapsedMs 3 (skipBy (some 1) SkipUnit.seconds 1 none (some 2) 3 initState).1
      ≤ 2 * 1000 :=
  ⟨wallElapsed_amended.1 0 0 initState (Reachable.init 0 le_rfl) le_rfl,
   wallElapsed_amended.2 initState 3 1 2 SkipUnit.seconds 1 none rfl
     (by norm_num) (Or.inr rfl) (by norm_num)⟩

end YtTicks
